import Mathlib

/-!
Verification of the MaxMovies AI serverless chat endpoint (`api/generate.js`).

The JavaScript source is shallowly embedded.  Strings are Lean `String`s but
every operation is defined on their `data` character lists (Lean's
byte-indexed string primitives are avoided so that all definitions evaluate
inside the kernel).  JS values reaching the dynamically typed language
heuristic are modelled by `JsValue`; the per-user memory file is modelled by
an optional `MemoryRecord`; the single upstream HTTP call is modelled by an
`UpstreamOutcome` parameter describing what the call would produce.
`toLowerCase` is modelled character-wise on ASCII letters, which is exact for
the ASCII keyword lists and disclaimer phrases the code matches against.
-/

/-- A JavaScript value, as far as the dynamically typed helpers of
`generate.js` distinguish them: strings, numbers, booleans, `null` and
`undefined`. -/
inductive JsValue where
  | vstr : String → JsValue
  | vnum : Int → JsValue
  | vbool : Bool → JsValue
  | vnull : JsValue
  | vundefined : JsValue
deriving DecidableEq

/-- JS truthiness (`!x` in the source negates this): `""`, `0`, `false`,
`null` and `undefined` are falsy. -/
def jsTruthy : JsValue → Bool
  | JsValue.vstr s => !(s == "")
  | JsValue.vnum n => !(n == 0)
  | JsValue.vbool b => b
  | JsValue.vnull => false
  | JsValue.vundefined => false

/-- Model of `typeof x === 'string'`. -/
def jsIsString : JsValue → Bool
  | JsValue.vstr _ => true
  | _ => false

/-- The string payload of a `JsValue`; only read behind the string guard. -/
def jsStringOf : JsValue → String
  | JsValue.vstr s => s
  | _ => ""

/-- Substring test on character lists: `needle` occurs contiguously in
`hay`.  This models JS `String.prototype.includes`. -/
def listContainsSub (hay needle : List Char) : Bool :=
  (List.range (hay.length + 1)).any fun i => needle.isPrefixOf (hay.drop i)

/-- Model of `hay.includes(needle)` on Lean strings. -/
def jsIncludes (hay needle : String) : Bool := listContainsSub hay.data needle.data

/-- Model of `text.toLowerCase()` (character-wise, ASCII). -/
def jsToLowerCase (s : String) : String := ⟨s.data.map Char.toLower⟩

/-- Model of `s.trim()`: strip leading and trailing whitespace. -/
def jsTrim (s : String) : String :=
  ⟨((s.data.dropWhile Char.isWhitespace).reverse.dropWhile Char.isWhitespace).reverse⟩

/-- The `swahiliWords` list of `detectLanguage` (`generate.js` line 81). -/
def swahiliWords : List String :=
  ["habari", "sasa", "niko", "kwani", "basi", "ndio", "karibu", "asante", "mambo", "poa", "sawa"]

/-- The `shengWords` list of `detectLanguage` (`generate.js` line 82). -/
def shengWords : List String :=
  ["bro", "maze", "manze", "noma", "fiti", "safi", "buda", "msee", "mwana", "poa", "vibe"]

/-- Core of `detectLanguage` once the argument is known to be a string:
lower-case, count keyword-list members occurring as substrings, classify by
the total hit count. -/
def detectOnString (text : String) : String :=
  let lower := jsToLowerCase text
  let swCount := (swahiliWords.filter fun w => jsIncludes lower w).length
  let shCount := (shengWords.filter fun w => jsIncludes lower w).length
  if swCount + shCount = 0 then "english"
  else if swCount + shCount < 3 then "mixed"
  else "swahili"

/-- Model of `detectLanguage` (`generate.js` lines 75-90), including the
`if (!text || typeof text !== 'string') return "english"` guard. -/
def detectLanguage (text : JsValue) : String :=
  if !(jsTruthy text) || !(jsIsString text) then "english"
  else detectOnString (jsStringOf text)

/-- Total keyword hit count (`swCount + shCount`) of an input string. -/
def keywordHits (s : String) : Nat :=
  (swahiliWords.filter fun w => jsIncludes (jsToLowerCase s) w).length +
    (shengWords.filter fun w => jsIncludes (jsToLowerCase s) w).length

/-- One conversation turn: a role-tagged message. -/
structure Turn where
  role : String
  content : String
deriving DecidableEq

/-- The per-user conversation record stored in `/tmp/memory/memory_<id>.json`. -/
structure MemoryRecord where
  userId : String
  lastProject : Option String
  lastTask : Option String
  conversation : List Turn
deriving DecidableEq

/-- The persona preamble: the template-literal content of the seed system
turn in `loadMemory` (lines 42-57), including its leading newline and
trailing indentation. -/
def personaPreamble : String := "
You are **MaxMovies AI** — an expressive, helpful, brilliant film-focused digital assistant 🤖🎬.

🔥 BACKSTORY:
• You were created by Max — a 21-year-old full-stack developer from Kenya 🇰🇪.
• Your core specialty is **movies, TV series, streaming content, characters, plots, recommendations, trivia**.

🎬 ENTERTAINMENT INTELLIGENCE:
• Provide film/series recommendations, summaries, analysis, comparisons, lore, viewing order guides, watchlists, and streaming suggestions.
• Explain genres, tropes, acting, cinematography, scoring, directing styles, or franchise histories.
• Always stay spoiler-safe unless the user asks for spoilers.

💡 SPECIAL INSTRUCTION:
• MaxMovies AI is integrated into MaxMovies platform to help users find and choose their favorite TV shows and movies.
• Only mention this integration if the user explicitly asks about your platform, capabilities, or creator.
        "

/-- The default record `loadMemory` builds when no file exists or reading
fails (lines 33-61). -/
def defaultMemory (userId : String) : MemoryRecord :=
  { userId := userId, lastProject := none, lastTask := none,
    conversation := [{ role := "system", content := personaPreamble }] }

/-- Model of `loadMemory` (lines 19-61): the disk read is modelled by
`stored`, where `none` stands for a missing file or any read/parse failure,
both of which fall through to the default record.  The function never
throws. -/
def loadMemory (stored : Option MemoryRecord) (userId : String) : MemoryRecord :=
  match stored with
  | some m => m
  | none => defaultMemory userId

/-- First disclaimer phrase of the sanitizing regex (line 255). -/
def phraseAsAnAi : List Char := "as an ai".data

/-- Second disclaimer phrase of the sanitizing regex (line 255). -/
def phraseLanguageModel : List Char := "language model".data

/-- Case-insensitive match of phrase `p` (already lower-case) at the start
of `s`, as the `i`-flagged regex does. -/
def matchesCI (p s : List Char) : Bool := (s.take p.length).map Char.toLower == p

/-- Left-to-right single pass of
`reply.replace(/as an ai|language model/gi, "")`: at each position try the
alternatives in the regex order; on a match drop the matched characters and
continue after them, otherwise keep the character.  `fuel` only bounds the
recursion; it is always at least the length of the remaining list, so the
`0` case is never reached from `sanitizeList`. -/
def scrubGo : Nat → List Char → List Char
  | 0, s => s
  | _ + 1, [] => []
  | fuel + 1, c :: rest =>
    if matchesCI phraseAsAnAi (c :: rest) then
      scrubGo fuel (List.drop (phraseAsAnAi.length - 1) rest)
    else if matchesCI phraseLanguageModel (c :: rest) then
      scrubGo fuel (List.drop (phraseLanguageModel.length - 1) rest)
    else
      c :: scrubGo fuel rest

/-- The sanitizer on character lists. -/
def sanitizeList (s : List Char) : List Char := scrubGo s.length s

/-- Model of line 255: `assistantReply.replace(/as an ai|language model/gi, "")`. -/
def sanitizeReply (s : String) : String := ⟨sanitizeList s.data⟩

/-- Both disclaimer phrases, in regex alternation order. -/
def disclaimerPhrases : List (List Char) := [phraseAsAnAi, phraseLanguageModel]

/-- Position `i` starts a case-insensitive occurrence of `p` in `s`. -/
def occursAtCI (p s : List Char) (i : Nat) : Bool := matchesCI p (s.drop i)

/-- Character position `i` of `s` lies inside some case-insensitive
occurrence of a disclaimer phrase. -/
def coveredPos (s : List Char) (i : Nat) : Bool :=
  disclaimerPhrases.any fun p =>
    (List.range s.length).any fun j =>
      occursAtCI p s j && decide (j ≤ i) && decide (i < j + p.length)

/-- Keep the characters whose positions (counted from the given offset) are
not covered. -/
def keepUncovered (cov : Nat → Bool) : Nat → List Char → List Char
  | _, [] => []
  | i, c :: rest =>
    if cov i then keepUncovered cov (i + 1) rest
    else c :: keepUncovered cov (i + 1) rest

/-- Sanitization as the specification words it: remove every character that
belongs to a case-insensitive occurrence of a disclaimer phrase and keep
every other character in its original order. -/
def sanitizeSpec (s : List Char) : List Char := keepUncovered (coveredPos s) 0 s

/-- No two distinct disclaimer-phrase occurrences in `s` overlap. -/
def disjointOccs (s : List Char) : Bool :=
  disclaimerPhrases.all fun p => disclaimerPhrases.all fun q =>
    (List.range s.length).all fun i => (List.range s.length).all fun j =>
      !(occursAtCI p s i && occursAtCI q s j &&
          decide (i < j + q.length) && decide (j < i + p.length)) ||
        (decide (i = j) && p == q)

/-- The parsed body fields of a POST request; absent fields are `none`. -/
structure PostRequest where
  prompt : Option String
  project : Option String
  userId : Option String
deriving DecidableEq

/-- An error thrown by the upstream call, as the `catch` block reads it:
`error.response?.status`, `error.code` and `error.message`. -/
structure UpstreamError where
  responseStatus : Option Nat
  code : Option String
  message : String
deriving DecidableEq

/-- What the DeepSeek call would produce if attempted: a successful reply
payload (`none` models a response with no
`data.choices[0].message.content`) or a thrown error. -/
inductive UpstreamOutcome where
  | success : Option String → UpstreamOutcome
  | failure : UpstreamError → UpstreamOutcome
deriving DecidableEq

/-- The JSON response body of the handler (the fields the claims are
about), together with the HTTP status. -/
structure ApiResponse where
  status : Nat
  reply : Option String
  error : Option String
  message : Option String
  details : Option String
deriving DecidableEq

/-- The externally visible outcome of one POST: the response, the record
passed to `saveMemory` (`none` when `saveMemory` is never reached), and
whether the upstream call was attempted. -/
structure HandlerResult where
  response : ApiResponse
  savedRecord : Option MemoryRecord
  upstreamCalled : Bool
deriving DecidableEq

/-- Model of `!prompt || prompt.trim() === ''` (line 166) with a possibly
absent `prompt`. -/
def promptInvalid (prompt : Option String) : Bool :=
  match prompt with
  | none => true
  | some p => p == "" || jsTrim p == ""

/-- The tone instruction chosen from the detected language (lines 191-198). -/
def languageInstructionFor (lang : String) : String :=
  if lang == "swahili" then
    "Respond fully in Swahili or Sheng naturally depending on tone."
  else if lang == "mixed" then
    "Respond bilingually — mostly English, with natural Swahili/Sheng flavor."
  else
    "Respond in English, friendly Kenyan developer tone."

/-- Model of lines 201-204.  In the source,
`const messages = [...memory.conversation]` copies the array but shares the
turn objects, so `messages[0].content += "\n\n" + languageInstruction`
writes through to the stored record's first turn; the embedding therefore
updates the record's own conversation. -/
def appendToneToSystemHead (conv : List Turn) (instr : String) : List Turn :=
  match conv with
  | [] => []
  | t :: rest =>
    if t.role == "system" then
      { t with content := t.content ++ "\n\n" ++ instr } :: rest
    else t :: rest

/-- Fallback reply when the upstream response carries no content (line 250). -/
def fallbackReply : String :=
  "I apologize, but I couldn't generate a response. Please try again."

/-- Model of the history cap (lines 258-264): when more than 20 turns are
stored, keep `conversation[0]` followed by `conversation.slice(-19)`. -/
def truncateConversation (conv : List Turn) : List Turn :=
  if 20 < conv.length then conv.take 1 ++ conv.drop (conv.length - 19)
  else conv

/-- Model of the `catch` block (lines 297-320): map a thrown upstream or
internal error to the error response.  `devMode` models
`process.env.NODE_ENV === 'development'`; `details` is `null` except in the
401 branch and falls back to the raw error message in development mode. -/
def mapUpstreamError (e : UpstreamError) (devMode : Bool) : ApiResponse :=
  let fallbackDetails : Option String := if devMode then some e.message else none
  if e.responseStatus = some 401 then
    { status := 401, reply := none, error := some "API key is invalid or missing.",
      message := none, details := some "Check your DEEPSEEK_API_KEY environment variable" }
  else if e.responseStatus = some 429 then
    { status := 429, reply := none,
      error := some "Rate limit exceeded. Please try again later.",
      message := none, details := fallbackDetails }
  else if e.code = some "ECONNABORTED" then
    { status := 408, reply := none, error := some "Request timeout. Please try again.",
      message := none, details := fallbackDetails }
  else if jsIncludes e.message "ENOENT" then
    { status := 500, reply := none, error := some "File system error.",
      message := none, details := fallbackDetails }
  else
    { status := 500, reply := none, error := some "Server error. Please try again.",
      message := none, details := fallbackDetails }

/-- The in-memory record after lines 177-204: load the record, overwrite
`lastProject` when a (truthy) project tag is supplied, set `lastTask`,
append the user turn, and apply the tone-instruction write-through of
`appendToneToSystemHead`. -/
def recordAfterRequest (stored : Option MemoryRecord) (req : PostRequest)
    (prompt userId : String) : MemoryRecord :=
  let memory0 := loadMemory stored userId
  let memory1 : MemoryRecord :=
    { memory0 with
      lastProject := match req.project with
        | some pr => if pr == "" then memory0.lastProject else some pr
        | none => memory0.lastProject,
      lastTask := some prompt,
      conversation := memory0.conversation ++ [{ role := "user", content := prompt }] }
  let instr := languageInstructionFor (detectLanguage (JsValue.vstr prompt))
  { memory1 with conversation := appendToneToSystemHead memory1.conversation instr }

/-- The record after lines 256-264: append the sanitized assistant turn and
apply the history cap.  This is the record passed to `saveMemory`. -/
def recordAfterReply (m : MemoryRecord) (cleanText : String) : MemoryRecord :=
  { m with
    conversation :=
      truncateConversation
        (m.conversation ++ [{ role := "assistant", content := cleanText }]) }

/-- Model of the POST path of `handler` (lines 146-321) as a pure function.
`stored` is the per-user record on disk (`none` when missing or unreadable),
`apiKey` is `process.env.DEEPSEEK_API_KEY` (`none` when absent; the source
guard `!process.env.DEEPSEEK_API_KEY` also fires on the empty string),
`upstream` is what the DeepSeek call would produce if attempted. -/
def handlePost (stored : Option MemoryRecord) (apiKey : Option String)
    (upstream : UpstreamOutcome) (req : PostRequest) (devMode : Bool) : HandlerResult :=
  if promptInvalid req.prompt then
    { response :=
        { status := 400, reply := none,
          error := some "Missing or empty prompt parameter.",
          message := none, details := none },
      savedRecord := none, upstreamCalled := false }
  else
    let prompt := req.prompt.getD ""
    let memory2 := recordAfterRequest stored req prompt (req.userId.getD "default")
    if apiKey.getD "" == "" then
      { response :=
          { status := 500, reply := none,
            error := some "Server configuration error",
            message := some "API key is not configured", details := none },
        savedRecord := none, upstreamCalled := false }
    else
      match upstream with
      | UpstreamOutcome.failure e =>
        { response := mapUpstreamError e devMode,
          savedRecord := none, upstreamCalled := true }
      | UpstreamOutcome.success content =>
        let cleanText := sanitizeReply (content.getD fallbackReply)
        { response :=
            { status := 200, reply := some cleanText, error := none,
              message := none, details := none },
          savedRecord := some (recordAfterReply memory2 cleanText),
          upstreamCalled := true }

/-- A conversation whose first turn is a `system` turn whose content starts
with the persona preamble. -/
def headPersonaL (conv : List Turn) : Bool :=
  match conv with
  | [] => false
  | t :: _ => t.role == "system" && personaPreamble.data.isPrefixOf t.content.data

/-- A record whose first turn is a `system` turn containing the persona
preamble (as a prefix of its content). -/
def headIsPersonaSystem (m : MemoryRecord) : Bool := headPersonaL m.conversation

theorem listContainsSub_iff (hay needle : List Char) :
    listContainsSub hay needle = true ↔ ∃ t u, hay = t ++ needle ++ u := by
  constructor
  · intro h
    rcases List.any_eq_true.mp h with ⟨i, _, hp⟩
    rcases List.isPrefixOf_iff_prefix.mp hp with ⟨u, hu⟩
    refine ⟨hay.take i, u, ?_⟩
    conv_lhs => rw [← List.take_append_drop i hay]
    rw [← hu, List.append_assoc]
  · rintro ⟨t, u, rfl⟩
    refine List.any_eq_true.mpr ⟨t.length, ?_, ?_⟩
    · simp [List.mem_range, List.length_append]
      omega
    · rw [List.append_assoc, List.drop_left]
      exact List.isPrefixOf_iff_prefix.mpr (List.prefix_append needle u)

theorem jsIncludes_iff (hay needle : String) :
    jsIncludes hay needle = true ↔ ∃ t u : String, hay = t ++ needle ++ u := by
  unfold jsIncludes
  rw [listContainsSub_iff]
  constructor
  · rintro ⟨t, u, h⟩
    refine ⟨⟨t⟩, ⟨u⟩, ?_⟩
    apply String.ext
    simpa [String.data_append] using h
  · rintro ⟨t, u, rfl⟩
    exact ⟨t.data, u.data, by simp [String.data_append]⟩

theorem keywordHits_empty : keywordHits "" = 0 := by decide

theorem detectOnString_eq_hits (s : String) :
    detectOnString s =
      if keywordHits s = 0 then "english"
      else if keywordHits s < 3 then "mixed"
      else "swahili" := rfl

theorem detectLanguage_vstr (s : String) (h : s ≠ "") :
    detectLanguage (JsValue.vstr s) = detectOnString s := by
  simp [detectLanguage, jsTruthy, jsIsString, jsStringOf, h]

/-- Claim C1: `detectLanguage` lower-cases its input, counts the members of
the two fixed keyword lists that occur in it as substrings (the substring
sense is pinned down by the first conjunct), and returns `"english"` when
the total hit count is zero, `"mixed"` when it is one or two, and
`"swahili"` when it is at least three. -/
theorem detect_language_classification (s : String) :
    (∀ w : String, jsIncludes (jsToLowerCase s) w = true ↔
        ∃ t u : String, jsToLowerCase s = t ++ w ++ u) ∧
    (keywordHits s = 0 → detectLanguage (JsValue.vstr s) = "english") ∧
    (1 ≤ keywordHits s → keywordHits s < 3 →
        detectLanguage (JsValue.vstr s) = "mixed") ∧
    (3 ≤ keywordHits s → detectLanguage (JsValue.vstr s) = "swahili") := by
  refine ⟨fun w => jsIncludes_iff _ _, ?_, ?_, ?_⟩
  · intro h0
    by_cases hs : s = ""
    · subst hs; rfl
    · rw [detectLanguage_vstr s hs, detectOnString_eq_hits, if_pos h0]
  · intro h1 h3
    by_cases hs : s = ""
    · subst hs; rw [keywordHits_empty] at h1; omega
    · rw [detectLanguage_vstr s hs, detectOnString_eq_hits, if_neg (by omega), if_pos h3]
  · intro h3
    by_cases hs : s = ""
    · subst hs; rw [keywordHits_empty] at h3; omega
    · rw [detectLanguage_vstr s hs, detectOnString_eq_hits, if_neg (by omega), if_neg (by omega)]

theorem detect_language_classification_witness :
    keywordHits "Hello, what should I watch tonight?" = 0 ∧
    detectLanguage (JsValue.vstr "Hello, what should I watch tonight?") = "english" ∧
    keywordHits "habari yako" = 1 ∧
    detectLanguage (JsValue.vstr "habari yako") = "mixed" ∧
    keywordHits "bro that movie was noma and safi" = 3 ∧
    detectLanguage (JsValue.vstr "bro that movie was noma and safi") = "swahili" :=
  ⟨by decide,
   (detect_language_classification _).2.1 (by decide),
   by decide,
   (detect_language_classification _).2.2.1 (by decide) (by decide),
   by decide,
   (detect_language_classification _).2.2.2 (by decide)⟩

/-- Claim C9: the language heuristic returns `"english"` on the empty
string, on `null`, on `undefined`, and on every non-string value.  The
embedding is a total function: the guard precedes every string operation,
mirroring that the JS code performs no property access on non-strings. -/
theorem detect_language_guard :
    detectLanguage (JsValue.vstr "") = "english" ∧
    detectLanguage JsValue.vnull = "english" ∧
    detectLanguage JsValue.vundefined = "english" ∧
    ∀ v : JsValue, jsIsString v = false → detectLanguage v = "english" := by
  refine ⟨rfl, rfl, rfl, ?_⟩
  intro v hv
  cases v <;> simp_all [detectLanguage, jsIsString, jsTruthy]

theorem detect_language_guard_witness :
    detectLanguage (JsValue.vnum 42) = "english" :=
  detect_language_guard.2.2.2 (JsValue.vnum 42) rfl

theorem two_le_length_of_mem {α : Type} {l : List α} {a b : α}
    (ha : a ∈ l) (hb : b ∈ l) (hab : a ≠ b) : 2 ≤ l.length := by
  cases l with
  | nil => cases ha
  | cons x xs =>
    cases xs with
    | nil =>
      simp only [List.mem_singleton] at ha hb
      exact absurd (ha.trans hb.symm) hab
    | cons y ys => simp [List.length]

/-- Claim C10: `"poa"` is a member of both fixed keyword lists, so it
contributes two hits: an input containing `"poa"` and no other listed
term has exactly two hits and is classified `"mixed"`, and an input
containing `"poa"` plus any one other listed term reaches three hits and is
classified `"swahili"`. -/
theorem poa_double_count :
    "poa" ∈ swahiliWords ∧ "poa" ∈ shengWords ∧
    ∀ s : String,
      (jsIncludes (jsToLowerCase s) "poa" = true →
        (∀ w ∈ swahiliWords, w ≠ "poa" → jsIncludes (jsToLowerCase s) w = false) →
        (∀ w ∈ shengWords, w ≠ "poa" → jsIncludes (jsToLowerCase s) w = false) →
        keywordHits s = 2 ∧ detectLanguage (JsValue.vstr s) = "mixed") ∧
      (∀ t : String, jsIncludes (jsToLowerCase s) "poa" = true →
        (t ∈ swahiliWords ∨ t ∈ shengWords) → t ≠ "poa" →
        jsIncludes (jsToLowerCase s) t = true →
        3 ≤ keywordHits s ∧ detectLanguage (JsValue.vstr s) = "swahili") := by
  refine ⟨by decide, by decide, fun s => ⟨?_, ?_⟩⟩
  · intro hp hsw hsh
    have e1 := hsw "habari" (by decide) (by decide)
    have e2 := hsw "sasa" (by decide) (by decide)
    have e3 := hsw "niko" (by decide) (by decide)
    have e4 := hsw "kwani" (by decide) (by decide)
    have e5 := hsw "basi" (by decide) (by decide)
    have e6 := hsw "ndio" (by decide) (by decide)
    have e7 := hsw "karibu" (by decide) (by decide)
    have e8 := hsw "asante" (by decide) (by decide)
    have e9 := hsw "mambo" (by decide) (by decide)
    have e10 := hsw "sawa" (by decide) (by decide)
    have f1 := hsh "bro" (by decide) (by decide)
    have f2 := hsh "maze" (by decide) (by decide)
    have f3 := hsh "manze" (by decide) (by decide)
    have f4 := hsh "noma" (by decide) (by decide)
    have f5 := hsh "fiti" (by decide) (by decide)
    have f6 := hsh "safi" (by decide) (by decide)
    have f7 := hsh "buda" (by decide) (by decide)
    have f8 := hsh "msee" (by decide) (by decide)
    have f9 := hsh "mwana" (by decide) (by decide)
    have f10 := hsh "vibe" (by decide) (by decide)
    have hits2 : keywordHits s = 2 := by
      simp [keywordHits, swahiliWords, shengWords, List.filter_cons, hp,
        e1, e2, e3, e4, e5, e6, e7, e8, e9, e10,
        f1, f2, f3, f4, f5, f6, f7, f8, f9, f10]
    have hs : s ≠ "" := by
      intro h
      rw [h, keywordHits_empty] at hits2
      omega
    refine ⟨hits2, ?_⟩
    rw [detectLanguage_vstr s hs, detectOnString_eq_hits, hits2]
    simp
  · intro t hp hmem hne ht
    have poaSw : "poa" ∈ swahiliWords.filter fun w => jsIncludes (jsToLowerCase s) w :=
      List.mem_filter.mpr ⟨by decide, hp⟩
    have poaSh : "poa" ∈ shengWords.filter fun w => jsIncludes (jsToLowerCase s) w :=
      List.mem_filter.mpr ⟨by decide, hp⟩
    have hits3 : 3 ≤ keywordHits s := by
      rcases hmem with hm | hm
      · have tmem : t ∈ swahiliWords.filter fun w => jsIncludes (jsToLowerCase s) w :=
          List.mem_filter.mpr ⟨hm, ht⟩
        have h2 := two_le_length_of_mem tmem poaSw hne
        have h1 := List.length_pos_of_mem poaSh
        unfold keywordHits
        omega
      · have tmem : t ∈ shengWords.filter fun w => jsIncludes (jsToLowerCase s) w :=
          List.mem_filter.mpr ⟨hm, ht⟩
        have h2 := two_le_length_of_mem tmem poaSh hne
        have h1 := List.length_pos_of_mem poaSw
        unfold keywordHits
        omega
    have hs : s ≠ "" := by
      intro h
      rw [h, keywordHits_empty] at hits3
      omega
    refine ⟨hits3, ?_⟩
    rw [detectLanguage_vstr s hs, detectOnString_eq_hits, if_neg (by omega), if_neg (by omega)]

theorem poa_double_count_witness :
    (keywordHits "poa" = 2 ∧ detectLanguage (JsValue.vstr "poa") = "mixed") ∧
    (3 ≤ keywordHits "poa sawa" ∧ detectLanguage (JsValue.vstr "poa sawa") = "swahili") :=
  ⟨(poa_double_count.2.2 "poa").1 (by decide) (by decide) (by decide),
   (poa_double_count.2.2 "poa sawa").2 "sawa" (by decide) (Or.inl (by decide))
     (by decide) (by decide)⟩

/-- Claim C2: when the conversation (after the assistant turn is appended)
has more than 20 turns, truncation keeps exactly 20: the original first
turn unchanged, followed by the last 19 turns of the pre-truncation
sequence in their original order; a sequence of at most 20 turns is left
unchanged. -/
theorem conversation_truncation (l : List Turn) :
    (l.length ≤ 20 → truncateConversation l = l) ∧
    (20 < l.length →
      (truncateConversation l).length = 20 ∧
      (truncateConversation l).head? = l.head? ∧
      (truncateConversation l).tail = l.drop (l.length - 19) ∧
      (l.drop (l.length - 19)).length = 19) := by
  constructor
  · intro h
    unfold truncateConversation
    rw [if_neg (by omega)]
  · intro h
    have hd : (l.drop (l.length - 19)).length = 19 := by
      rw [List.length_drop]; omega
    cases l with
    | nil => simp at h
    | cons a rest =>
      unfold truncateConversation
      rw [if_pos h]
      refine ⟨?_, by simp, by simp, hd⟩
      rw [List.length_append, List.length_take, List.length_drop]
      simp only [List.length_cons] at h ⊢
      omega

theorem conversation_truncation_witness :
    (truncateConversation [Turn.mk "system" "p"] = [Turn.mk "system" "p"]) ∧
    (truncateConversation
        (Turn.mk "system" "p" :: List.replicate 20 (Turn.mk "user" "x"))).length = 20 ∧
    (truncateConversation
        (Turn.mk "system" "p" :: List.replicate 20 (Turn.mk "user" "x"))).head? =
      (Turn.mk "system" "p" :: List.replicate 20 (Turn.mk "user" "x")).head? ∧
    (truncateConversation
        (Turn.mk "system" "p" :: List.replicate 20 (Turn.mk "user" "x"))).tail =
      (Turn.mk "system" "p" :: List.replicate 20 (Turn.mk "user" "x")).drop
        ((Turn.mk "system" "p" :: List.replicate 20 (Turn.mk "user" "x")).length - 19) ∧
    ((Turn.mk "system" "p" :: List.replicate 20 (Turn.mk "user" "x")).drop
        ((Turn.mk "system" "p" :: List.replicate 20 (Turn.mk "user" "x")).length - 19)).length
      = 19 :=
  ⟨(conversation_truncation _).1 (by decide),
   (conversation_truncation _).2 (by decide)⟩

theorem headPersonaL_append {conv : List Turn} (l2 : List Turn)
    (h : headPersonaL conv = true) : headPersonaL (conv ++ l2) = true := by
  cases conv with
  | nil => simp [headPersonaL] at h
  | cons t rest => simpa [headPersonaL] using h

theorem headPersonaL_tone {conv : List Turn} (instr : String)
    (h : headPersonaL conv = true) :
    headPersonaL (appendToneToSystemHead conv instr) = true := by
  cases conv with
  | nil => simp [headPersonaL] at h
  | cons t rest =>
    simp only [headPersonaL, Bool.and_eq_true] at h
    obtain ⟨hrole, hpre⟩ := h
    simp only [appendToneToSystemHead, hrole, if_true]
    simp only [headPersonaL, Bool.and_eq_true]
    refine ⟨hrole, ?_⟩
    rw [List.isPrefixOf_iff_prefix] at hpre ⊢
    have hdata : (t.content ++ "\n\n" ++ instr).data =
        t.content.data ++ ("\n\n".data ++ instr.data) := by
      rw [String.data_append, String.data_append, List.append_assoc]
    rw [hdata]
    exact hpre.trans (List.prefix_append _ _)

theorem headPersonaL_truncate {conv : List Turn}
    (h : headPersonaL conv = true) :
    headPersonaL (truncateConversation conv) = true := by
  unfold truncateConversation
  split
  · cases conv with
    | nil => simp [headPersonaL] at h
    | cons t rest => simpa [headPersonaL] using h
  · exact h

theorem headIsPersonaSystem_default (u : String) :
    headIsPersonaSystem (defaultMemory u) = true := by
  simp [headIsPersonaSystem, defaultMemory, headPersonaL,
    List.isPrefixOf_iff_prefix, List.prefix_refl]

theorem headIsPersonaSystem_afterRequest (stored : Option MemoryRecord)
    (req : PostRequest) (prompt userId : String)
    (hstored : ∀ m, stored = some m → headIsPersonaSystem m = true) :
    headIsPersonaSystem (recordAfterRequest stored req prompt userId) = true := by
  have hbase : headPersonaL (loadMemory stored userId).conversation = true := by
    cases stored with
    | none => exact headIsPersonaSystem_default userId
    | some m => exact hstored m rfl
  exact headPersonaL_tone _ (headPersonaL_append _ hbase)

theorem headIsPersonaSystem_afterReply (m : MemoryRecord) (c : String)
    (h : headIsPersonaSystem m = true) :
    headIsPersonaSystem (recordAfterReply m c) = true :=
  headPersonaL_truncate (headPersonaL_append _ h)

/-- Claim C3: the default record's first turn is a `system` turn containing
the persona preamble, and every record the handler persists keeps a
`system` first turn containing the persona preamble: the first turn is
never removed or displaced by the append-and-truncate step. -/
theorem system_turn_invariant :
    (∀ u : String, headIsPersonaSystem (defaultMemory u) = true) ∧
    ∀ (stored : Option MemoryRecord) (apiKey : Option String)
      (upstream : UpstreamOutcome) (req : PostRequest) (devMode : Bool)
      (rec : MemoryRecord),
      (∀ m, stored = some m → headIsPersonaSystem m = true) →
      (handlePost stored apiKey upstream req devMode).savedRecord = some rec →
      headIsPersonaSystem rec = true := by
  refine ⟨headIsPersonaSystem_default, ?_⟩
  intro stored apiKey upstream req devMode rec hstored hsave
  rcases Bool.eq_false_or_eq_true (promptInvalid req.prompt) with hp | hp
  · simp [handlePost, hp] at hsave
  · by_cases hk : apiKey.getD "" = ""
    · simp [handlePost, hp, hk] at hsave
    · cases upstream with
      | failure e => simp [handlePost, hp, hk] at hsave
      | success content =>
        simp [handlePost, hp, hk] at hsave
        subst hsave
        exact headIsPersonaSystem_afterReply _ _
          (headIsPersonaSystem_afterRequest _ _ _ _ hstored)

theorem system_turn_invariant_witness :
    headIsPersonaSystem (defaultMemory "default") = true ∧
    ((handlePost none (some "key") (UpstreamOutcome.success (some "Hi there"))
        { prompt := some "hello", project := none, userId := none } false).savedRecord.map
      headIsPersonaSystem) = some true := by
  refine ⟨system_turn_invariant.1 "default", ?_⟩
  cases hrec : (handlePost none (some "key") (UpstreamOutcome.success (some "Hi there"))
      { prompt := some "hello", project := none, userId := none } false).savedRecord with
  | none => exact absurd hrec (by decide)
  | some r =>
    have hr := system_turn_invariant.2 none (some "key")
      (UpstreamOutcome.success (some "Hi there"))
      { prompt := some "hello", project := none, userId := none } false r
      (fun m h => by cases h) hrec
    simp [hr]

set_option maxRecDepth 100000 in
/-- Claim C4 is refuted by the code: `const messages = [...memory.conversation]`
copies the array but shares the turn objects, so
`messages[0].content += "\n\n" + languageInstruction` mutates the stored
record's system turn, and the record persisted by a successful request
carries the tone instruction appended to the persona preamble, contrary to
the specification's statement that the record is not mutated and the tone
instruction is never persisted. -/
theorem tone_instruction_persisted :
    ((handlePost none (some "key") (UpstreamOutcome.success (some "Hello!"))
        { prompt := some "hello", project := none, userId := none } false).savedRecord.map
      fun r => r.conversation.head?.map fun t => t.content) =
      some (some (personaPreamble ++ "\n\n" ++
        "Respond in English, friendly Kenyan developer tone.")) ∧
    personaPreamble ++ "\n\n" ++ "Respond in English, friendly Kenyan developer tone." ≠
      personaPreamble :=
  ⟨by decide, by decide⟩

/-- Claim C5: a POST whose prompt is missing, empty or whitespace-only gets
a 400 response with a descriptive message, nothing is persisted, and the
upstream call is not attempted. -/
theorem empty_prompt_no_side_effects (stored : Option MemoryRecord)
    (apiKey : Option String) (upstream : UpstreamOutcome) (req : PostRequest)
    (devMode : Bool)
    (h : req.prompt = none ∨ ∃ p, req.prompt = some p ∧ jsTrim p = "") :
    (handlePost stored apiKey upstream req devMode).response.status = 400 ∧
    (handlePost stored apiKey upstream req devMode).response.error =
      some "Missing or empty prompt parameter." ∧
    (handlePost stored apiKey upstream req devMode).savedRecord = none ∧
    (handlePost stored apiKey upstream req devMode).upstreamCalled = false := by
  have hp : promptInvalid req.prompt = true := by
    rcases h with h | ⟨p, hps, ht⟩
    · simp [promptInvalid, h]
    · simp [promptInvalid, hps, ht]
  simp [handlePost, hp]

theorem empty_prompt_no_side_effects_witness :
    (handlePost none none (UpstreamOutcome.failure ⟨none, none, ""⟩)
        { prompt := some "   ", project := none, userId := none } false).response.status = 400 ∧
    (handlePost none none (UpstreamOutcome.failure ⟨none, none, ""⟩)
        { prompt := some "   ", project := none, userId := none } false).response.error =
      some "Missing or empty prompt parameter." ∧
    (handlePost none none (UpstreamOutcome.failure ⟨none, none, ""⟩)
        { prompt := some "   ", project := none, userId := none } false).savedRecord = none ∧
    (handlePost none none (UpstreamOutcome.failure ⟨none, none, ""⟩)
        { prompt := some "   ", project := none, userId := none } false).upstreamCalled =
      false :=
  empty_prompt_no_side_effects none none (UpstreamOutcome.failure ⟨none, none, ""⟩)
    { prompt := some "   ", project := none, userId := none } false
    (Or.inr ⟨"   ", rfl, by decide⟩)

/-- Claim C6: a POST with a valid non-empty prompt but no upstream
credential gets a 500 response with the configuration-specific message, and
the upstream call is not attempted. -/
theorem missing_api_key_config_error (stored : Option MemoryRecord)
    (upstream : UpstreamOutcome) (req : PostRequest) (devMode : Bool)
    (h : ∃ p, req.prompt = some p ∧ jsTrim p ≠ "") :
    (handlePost stored none upstream req devMode).response.status = 500 ∧
    (handlePost stored none upstream req devMode).response.error =
      some "Server configuration error" ∧
    (handlePost stored none upstream req devMode).response.message =
      some "API key is not configured" ∧
    (handlePost stored none upstream req devMode).savedRecord = none ∧
    (handlePost stored none upstream req devMode).upstreamCalled = false := by
  obtain ⟨p, hps, ht⟩ := h
  have hpne : p ≠ "" := by
    intro h0
    exact ht (by rw [h0]; decide)
  have hp : promptInvalid req.prompt = false := by
    simp [promptInvalid, hps, beq_eq_false_iff_ne, hpne, ht]
  simp [handlePost, hp]

theorem missing_api_key_config_error_witness :
    (handlePost none none (UpstreamOutcome.failure ⟨none, none, ""⟩)
        { prompt := some "hello", project := none, userId := none } false).response.status = 500 ∧
    (handlePost none none (UpstreamOutcome.failure ⟨none, none, ""⟩)
        { prompt := some "hello", project := none, userId := none } false).response.error =
      some "Server configuration error" ∧
    (handlePost none none (UpstreamOutcome.failure ⟨none, none, ""⟩)
        { prompt := some "hello", project := none, userId := none } false).response.message =
      some "API key is not configured" ∧
    (handlePost none none (UpstreamOutcome.failure ⟨none, none, ""⟩)
        { prompt := some "hello", project := none, userId := none } false).savedRecord = none ∧
    (handlePost none none (UpstreamOutcome.failure ⟨none, none, ""⟩)
        { prompt := some "hello", project := none, userId := none } false).upstreamCalled =
      false :=
  missing_api_key_config_error none (UpstreamOutcome.failure ⟨none, none, ""⟩)
    { prompt := some "hello", project := none, userId := none } false
    ⟨"hello", rfl, by decide⟩

/-- Claim C8 as amended: with a valid prompt and a configured key, an
upstream failure is never persisted and maps to the response of
`mapUpstreamError`: upstream 401 yields status 401 with a credential hint,
upstream 429 yields 429, a timeout (`ECONNABORTED`, no response status)
yields 408, and any other failure yields 500 — with the message
`"File system error."` when the failure message contains `"ENOENT"` and the
generic `"Server error. Please try again."` otherwise. -/
theorem upstream_error_mapping (stored : Option MemoryRecord) (req : PostRequest)
    (devMode : Bool) (apiKey : Option String) (e : UpstreamError)
    (hv : ∃ p, req.prompt = some p ∧ jsTrim p ≠ "")
    (hk : ∃ k, apiKey = some k ∧ k ≠ "") :
    (handlePost stored apiKey (UpstreamOutcome.failure e) req devMode).upstreamCalled
      = true ∧
    (handlePost stored apiKey (UpstreamOutcome.failure e) req devMode).savedRecord
      = none ∧
    (handlePost stored apiKey (UpstreamOutcome.failure e) req devMode).response =
      mapUpstreamError e devMode ∧
    (e.responseStatus = some 401 →
      (mapUpstreamError e devMode).status = 401 ∧
      (mapUpstreamError e devMode).error = some "API key is invalid or missing." ∧
      (mapUpstreamError e devMode).details =
        some "Check your DEEPSEEK_API_KEY environment variable") ∧
    (e.responseStatus = some 429 →
      (mapUpstreamError e devMode).status = 429 ∧
      (mapUpstreamError e devMode).error =
        some "Rate limit exceeded. Please try again later.") ∧
    (e.responseStatus = none → e.code = some "ECONNABORTED" →
      (mapUpstreamError e devMode).status = 408 ∧
      (mapUpstreamError e devMode).error = some "Request timeout. Please try again.") ∧
    (e.responseStatus ≠ some 401 → e.responseStatus ≠ some 429 →
      e.code ≠ some "ECONNABORTED" →
      (mapUpstreamError e devMode).status = 500 ∧
      (jsIncludes e.message "ENOENT" = true →
        (mapUpstreamError e devMode).error = some "File system error.") ∧
      (jsIncludes e.message "ENOENT" = false →
        (mapUpstreamError e devMode).error =
          some "Server error. Please try again.")) := by
  obtain ⟨p, hps, htr⟩ := hv
  obtain ⟨k, hks, hkne⟩ := hk
  have hpne : p ≠ "" := by
    intro h0
    exact htr (by rw [h0]; decide)
  have hp : promptInvalid req.prompt = false := by
    simp [promptInvalid, hps, beq_eq_false_iff_ne, hpne, htr]
  have hkey : ¬(apiKey.getD "" = "") := by
    simp [hks, hkne]
  refine ⟨by simp [handlePost, hp, hkey], by simp [handlePost, hp, hkey],
    by simp [handlePost, hp, hkey], ?_, ?_, ?_, ?_⟩
  · intro h401
    simp [mapUpstreamError, h401]
  · intro h429
    simp [mapUpstreamError, h429]
  · intro hnone hcode
    simp [mapUpstreamError, hnone, hcode]
  · intro h1 h2 h3
    refine ⟨?_, ?_, ?_⟩
    · rcases Bool.eq_false_or_eq_true (jsIncludes e.message "ENOENT") with hEN | hEN <;>
        simp [mapUpstreamError, h1, h2, h3, hEN]
    · intro hEN
      simp [mapUpstreamError, h1, h2, h3, hEN]
    · intro hEN
      simp [mapUpstreamError, h1, h2, h3, hEN]

theorem upstream_error_mapping_witness :
    (handlePost none (some "key")
        (UpstreamOutcome.failure ⟨some 401, none, "unauthorized"⟩)
        { prompt := some "hello", project := none, userId := none } false).upstreamCalled
      = true ∧
    (handlePost none (some "key")
        (UpstreamOutcome.failure ⟨some 401, none, "unauthorized"⟩)
        { prompt := some "hello", project := none, userId := none } false).savedRecord
      = none ∧
    (handlePost none (some "key")
        (UpstreamOutcome.failure ⟨some 401, none, "unauthorized"⟩)
        { prompt := some "hello", project := none, userId := none } false).response.status
      = 401 := by
  have h := upstream_error_mapping none
    { prompt := some "hello", project := none, userId := none } false (some "key")
    ⟨some 401, none, "unauthorized"⟩ ⟨"hello", rfl, by decide⟩ ⟨"key", rfl, by decide⟩
  refine ⟨h.1, h.2.1, ?_⟩
  rw [h.2.2.1]
  exact (h.2.2.2.1 rfl).1

/-- Claim C8 as stated is refuted at a failure whose message contains
`"ENOENT"` and which has no response status and no `ECONNABORTED` code: it
is not mapped to 401, 429 or 408, so the claim requires the generic
server-error message, but the code answers 500 with the distinct message
`"File system error."`. -/
theorem upstream_error_generic_counterexample :
    (handlePost none (some "key")
        (UpstreamOutcome.failure ⟨none, none, "ENOENT: no such file or directory"⟩)
        { prompt := some "hello", project := none, userId := none } false).response.status
      = 500 ∧
    (handlePost none (some "key")
        (UpstreamOutcome.failure ⟨none, none, "ENOENT: no such file or directory"⟩)
        { prompt := some "hello", project := none, userId := none } false).response.error
      = some "File system error." ∧
    (some "File system error." : Option String) ≠
      some "Server error. Please try again." :=
  ⟨by decide, by decide, by decide⟩

theorem bool_eq_of_iff {a b : Bool} (h : a = true ↔ b = true) : a = b := by
  cases a <;> cases b <;> simp_all

theorem mem_disclaimerPhrases {p : List Char} (h : p ∈ disclaimerPhrases) :
    p = phraseAsAnAi ∨ p = phraseLanguageModel := by
  simpa [disclaimerPhrases] using h

theorem phrase_pos {p : List Char} (h : p ∈ disclaimerPhrases) : 0 < p.length := by
  rcases mem_disclaimerPhrases h with rfl | rfl <;> decide

theorem matchesCI_length {p s : List Char} (h : matchesCI p s = true) :
    p.length ≤ s.length := by
  unfold matchesCI at h
  rw [beq_iff_eq] at h
  have hl := congrArg List.length h
  simp only [List.length_map, List.length_take] at hl
  omega

theorem occursAtCI_bound {p s : List Char} {i : Nat} (hp : 0 < p.length)
    (h : occursAtCI p s i = true) : i + p.length ≤ s.length := by
  have h' : matchesCI p (s.drop i) = true := h
  have hlen := matchesCI_length h'
  rw [List.length_drop] at hlen
  omega

theorem occursAtCI_drop (p s : List Char) (k i : Nat) :
    occursAtCI p (s.drop k) i = occursAtCI p s (k + i) := by
  unfold occursAtCI
  rw [List.drop_drop]

theorem coveredPos_iff (s : List Char) (i : Nat) :
    coveredPos s i = true ↔
      ∃ p, p ∈ disclaimerPhrases ∧
        ∃ j, occursAtCI p s j = true ∧ j ≤ i ∧ i < j + p.length := by
  unfold coveredPos
  rw [List.any_eq_true]
  constructor
  · rintro ⟨p, hp, hx⟩
    rw [List.any_eq_true] at hx
    obtain ⟨j, _, hj⟩ := hx
    simp only [Bool.and_eq_true, decide_eq_true_eq] at hj
    exact ⟨p, hp, j, hj.1.1, hj.1.2, hj.2⟩
  · rintro ⟨p, hp, j, hocc, hji, hij⟩
    refine ⟨p, hp, ?_⟩
    rw [List.any_eq_true]
    refine ⟨j, ?_, ?_⟩
    · rw [List.mem_range]
      have hb := occursAtCI_bound (phrase_pos hp) hocc
      have hp0 := phrase_pos hp
      omega
    · simp only [Bool.and_eq_true, decide_eq_true_eq]
      exact ⟨⟨hocc, hji⟩, hij⟩

theorem disjointOccs_spec {s : List Char} (h : disjointOccs s = true) :
    ∀ p ∈ disclaimerPhrases, ∀ q ∈ disclaimerPhrases, ∀ i j,
      occursAtCI p s i = true → occursAtCI q s j = true →
      i < j + q.length → j < i + p.length → i = j ∧ p = q := by
  intro p hp q hq i j hop hoq hij hji
  unfold disjointOccs at h
  rw [List.all_eq_true] at h
  have h1 := h p hp
  rw [List.all_eq_true] at h1
  have h2 := h1 q hq
  rw [List.all_eq_true] at h2
  have hibound : i < s.length := by
    have hb := occursAtCI_bound (phrase_pos hp) hop
    have hp0 := phrase_pos hp
    omega
  have hjbound : j < s.length := by
    have hb := occursAtCI_bound (phrase_pos hq) hoq
    have hq0 := phrase_pos hq
    omega
  have h3 := h2 i (List.mem_range.mpr hibound)
  rw [List.all_eq_true] at h3
  have h4 := h3 j (List.mem_range.mpr hjbound)
  rcases Bool.or_eq_true_iff.mp h4 with h5 | h5
  · exfalso
    rw [Bool.not_eq_true'] at h5
    simp [hop, hoq, hij, hji] at h5
  · simp only [Bool.and_eq_true, decide_eq_true_eq, beq_iff_eq] at h5
    exact h5

theorem disjointOccs_drop {s : List Char} (k : Nat) (h : disjointOccs s = true) :
    disjointOccs (s.drop k) = true := by
  unfold disjointOccs
  rw [List.all_eq_true]
  intro p hp
  rw [List.all_eq_true]
  intro q hq
  rw [List.all_eq_true]
  intro i _
  rw [List.all_eq_true]
  intro j _
  rcases Bool.eq_false_or_eq_true (occursAtCI p (List.drop k s) i &&
      occursAtCI q (List.drop k s) j &&
      decide (i < j + q.length) && decide (j < i + p.length)) with hX | hX
  · have hX' := hX
    simp only [Bool.and_eq_true, decide_eq_true_eq] at hX'
    obtain ⟨⟨⟨h1, h2⟩, h3⟩, h4⟩ := hX'
    rw [occursAtCI_drop] at h1 h2
    have hd := disjointOccs_spec h p hp q hq (k + i) (k + j) h1 h2 (by omega) (by omega)
    have hij : i = j := by
      have := hd.1
      omega
    simp [hij, hd.2]
  · simp [hX]

theorem coveredPos_of_head_occ {s p : List Char}
    (hp : p ∈ disclaimerPhrases) (h0 : occursAtCI p s 0 = true) :
    ∀ i, i < p.length → coveredPos s i = true := by
  intro i hi
  rw [coveredPos_iff]
  exact ⟨p, hp, 0, h0, Nat.zero_le i, by omega⟩

theorem coveredPos_shift_of_head_occ {s p : List Char}
    (hp : p ∈ disclaimerPhrases) (h0 : occursAtCI p s 0 = true)
    (hd : disjointOccs s = true) :
    ∀ i, coveredPos s (p.length + i) = coveredPos (s.drop p.length) i := by
  intro i
  apply bool_eq_of_iff
  rw [coveredPos_iff, coveredPos_iff]
  constructor
  · rintro ⟨q, hq, j, hocc, hji, hij⟩
    by_cases hjp : j < p.length
    · exfalso
      have hq0 := phrase_pos hq
      have hover := disjointOccs_spec hd p hp q hq 0 j h0 hocc (by omega) (by omega)
      obtain ⟨hj0, hpq⟩ := hover
      subst hpq
      omega
    · refine ⟨q, hq, j - p.length, ?_, by omega, ?_⟩
      · rw [occursAtCI_drop]
        rw [show p.length + (j - p.length) = j from by omega]
        exact hocc
      · have hq0 := phrase_pos hq
        omega
  · rintro ⟨q, hq, j, hocc, hji, hij⟩
    rw [occursAtCI_drop] at hocc
    exact ⟨q, hq, p.length + j, hocc, by omega, by omega⟩

theorem coveredPos_zero_of_no_head {s : List Char}
    (h0 : ∀ p ∈ disclaimerPhrases, occursAtCI p s 0 = false) :
    coveredPos s 0 = false := by
  rw [Bool.eq_false_iff, Ne, coveredPos_iff]
  rintro ⟨p, hp, j, hocc, hj0, _⟩
  have hj : j = 0 := Nat.le_zero.mp hj0
  subst hj
  simp [h0 p hp] at hocc

theorem coveredPos_succ_of_no_head {c : Char} {rest : List Char}
    (h0 : ∀ p ∈ disclaimerPhrases, occursAtCI p (c :: rest) 0 = false) :
    ∀ i, coveredPos (c :: rest) (i + 1) = coveredPos rest i := by
  intro i
  apply bool_eq_of_iff
  rw [coveredPos_iff, coveredPos_iff]
  constructor
  · rintro ⟨p, hp, j, hocc, hji, hij⟩
    cases j with
    | zero => simp [h0 p hp] at hocc
    | succ j' =>
      refine ⟨p, hp, j', ?_, by omega, by omega⟩
      have hshift : occursAtCI p (c :: rest) (j' + 1) = occursAtCI p rest j' := by
        unfold occursAtCI
        rw [List.drop_succ_cons]
      rwa [hshift] at hocc
  · rintro ⟨p, hp, j, hocc, hji, hij⟩
    refine ⟨p, hp, j + 1, ?_, by omega, by omega⟩
    have hshift : occursAtCI p (c :: rest) (j + 1) = occursAtCI p rest j := by
      unfold occursAtCI
      rw [List.drop_succ_cons]
    rwa [hshift]

theorem keepUncovered_congr (cov1 cov2 : Nat → Bool) :
    ∀ (l : List Char) (a b : Nat), (∀ i, cov1 (a + i) = cov2 (b + i)) →
      keepUncovered cov1 a l = keepUncovered cov2 b l := by
  intro l
  induction l with
  | nil => intro a b _; rfl
  | cons c rest ih =>
    intro a b h
    have h0 := h 0
    rw [Nat.add_zero, Nat.add_zero] at h0
    have hrec := ih (a + 1) (b + 1) (fun i => by
      have hh := h (i + 1)
      rw [show a + (i + 1) = a + 1 + i from by omega,
        show b + (i + 1) = b + 1 + i from by omega] at hh
      exact hh)
    simp only [keepUncovered]
    rw [h0, hrec]

theorem keepUncovered_drop (cov : Nat → Bool) :
    ∀ (k : Nat) (l : List Char) (a : Nat), (∀ i, i < k → cov (a + i) = true) →
      keepUncovered cov a l = keepUncovered cov (a + k) (l.drop k) := by
  intro k
  induction k with
  | zero =>
    intro l a _
    rw [Nat.add_zero]
    rfl
  | succ k' ih =>
    intro l a h
    cases l with
    | nil => simp [keepUncovered, List.drop_nil]
    | cons c rest =>
      have h0 : cov a = true := by
        have hh := h 0 (by omega)
        rwa [Nat.add_zero] at hh
      simp only [keepUncovered]
      rw [if_pos h0, List.drop_succ_cons,
        show a + (k' + 1) = a + 1 + k' from by omega]
      exact ih rest (a + 1) (fun i hi => by
        have hh := h (i + 1) (by omega)
        rwa [show a + (i + 1) = a + 1 + i from by omega] at hh)

theorem scrubGo_fuel : ∀ (f1 f2 : Nat) (s : List Char),
    s.length ≤ f1 → s.length ≤ f2 → scrubGo f1 s = scrubGo f2 s := by
  intro f1
  induction f1 with
  | zero =>
    intro f2 s h1 _
    have hs : s = [] := List.eq_nil_of_length_eq_zero (by omega)
    subst hs
    cases f2 <;> rfl
  | succ f1' ih =>
    intro f2 s h1 h2
    cases s with
    | nil => cases f2 <;> rfl
    | cons c rest =>
      cases f2 with
      | zero =>
        simp only [List.length_cons] at h2
        omega
      | succ f2' =>
        simp only [List.length_cons] at h1 h2
        simp only [scrubGo]
        by_cases hm1 : matchesCI phraseAsAnAi (c :: rest) = true
        · rw [if_pos hm1, if_pos hm1]
          apply ih
          · rw [List.length_drop]; omega
          · rw [List.length_drop]; omega
        · rw [if_neg hm1, if_neg hm1]
          by_cases hm2 : matchesCI phraseLanguageModel (c :: rest) = true
          · rw [if_pos hm2, if_pos hm2]
            apply ih
            · rw [List.length_drop]; omega
            · rw [List.length_drop]; omega
          · rw [if_neg hm2, if_neg hm2]
            congr 1
            apply ih
            · omega
            · omega

theorem scrub_eq_keep : ∀ (n : Nat) (s : List Char), s.length ≤ n →
    disjointOccs s = true → scrubGo s.length s = keepUncovered (coveredPos s) 0 s := by
  intro n
  induction n with
  | zero =>
    intro s h _
    have hs : s = [] := List.eq_nil_of_length_eq_zero (by omega)
    subst hs
    rfl
  | succ n' ih =>
    intro s hlen hd
    cases s with
    | nil => rfl
    | cons c rest =>
      simp only [List.length_cons] at hlen
      by_cases hm1 : matchesCI phraseAsAnAi (c :: rest) = true
      · have hocc : occursAtCI phraseAsAnAi (c :: rest) 0 = true := hm1
        have hmem : phraseAsAnAi ∈ disclaimerPhrases := by simp [disclaimerPhrases]
        have hL : scrubGo (c :: rest).length (c :: rest) =
            scrubGo ((c :: rest).drop phraseAsAnAi.length).length
              ((c :: rest).drop phraseAsAnAi.length) := by
          simp only [List.length_cons, scrubGo]
          rw [if_pos hm1]
          apply scrubGo_fuel
          · rw [List.length_drop]
            omega
          · rw [List.length_drop, List.length_drop]
            simp only [List.length_cons]
            have hp0 : 0 < phraseAsAnAi.length := by decide
            omega
        have hR : keepUncovered (coveredPos (c :: rest)) 0 (c :: rest) =
            keepUncovered (coveredPos ((c :: rest).drop phraseAsAnAi.length)) 0
              ((c :: rest).drop phraseAsAnAi.length) := by
          have hstep1 := keepUncovered_drop (coveredPos (c :: rest)) phraseAsAnAi.length
            (c :: rest) 0 (fun i hi => by
              have hc := coveredPos_of_head_occ hmem hocc i hi
              rwa [Nat.zero_add])
          rw [hstep1]
          apply keepUncovered_congr
          intro i
          rw [Nat.zero_add, Nat.zero_add]
          exact coveredPos_shift_of_head_occ hmem hocc hd i
        rw [hL, hR]
        apply ih
        · rw [List.length_drop]
          simp only [List.length_cons]
          have hp0 : 0 < phraseAsAnAi.length := by decide
          omega
        · exact disjointOccs_drop _ hd
      · by_cases hm2 : matchesCI phraseLanguageModel (c :: rest) = true
        · have hocc : occursAtCI phraseLanguageModel (c :: rest) 0 = true := hm2
          have hmem : phraseLanguageModel ∈ disclaimerPhrases := by simp [disclaimerPhrases]
          have hL : scrubGo (c :: rest).length (c :: rest) =
              scrubGo ((c :: rest).drop phraseLanguageModel.length).length
                ((c :: rest).drop phraseLanguageModel.length) := by
            simp only [List.length_cons, scrubGo]
            rw [if_neg hm1, if_pos hm2]
            apply scrubGo_fuel
            · rw [List.length_drop]
              omega
            · rw [List.length_drop, List.length_drop]
              simp only [List.length_cons]
              have hp0 : 0 < phraseLanguageModel.length := by decide
              omega
          have hR : keepUncovered (coveredPos (c :: rest)) 0 (c :: rest) =
              keepUncovered (coveredPos ((c :: rest).drop phraseLanguageModel.length)) 0
                ((c :: rest).drop phraseLanguageModel.length) := by
            have hstep1 := keepUncovered_drop (coveredPos (c :: rest))
              phraseLanguageModel.length (c :: rest) 0 (fun i hi => by
                have hc := coveredPos_of_head_occ hmem hocc i hi
                rwa [Nat.zero_add])
            rw [hstep1]
            apply keepUncovered_congr
            intro i
            rw [Nat.zero_add, Nat.zero_add]
            exact coveredPos_shift_of_head_occ hmem hocc hd i
          rw [hL, hR]
          apply ih
          · rw [List.length_drop]
            simp only [List.length_cons]
            have hp0 : 0 < phraseLanguageModel.length := by decide
            omega
          · exact disjointOccs_drop _ hd
        · have hnone : ∀ p ∈ disclaimerPhrases, occursAtCI p (c :: rest) 0 = false := by
            intro p hp
            rcases mem_disclaimerPhrases hp with rfl | rfl
            · exact Bool.eq_false_iff.mpr hm1
            · exact Bool.eq_false_iff.mpr hm2
          have hL : scrubGo (c :: rest).length (c :: rest) =
              c :: scrubGo rest.length rest := by
            simp only [List.length_cons, scrubGo]
            rw [if_neg hm1, if_neg hm2]
          have hcov0 : coveredPos (c :: rest) 0 = false := coveredPos_zero_of_no_head hnone
          have hR : keepUncovered (coveredPos (c :: rest)) 0 (c :: rest) =
              c :: keepUncovered (coveredPos rest) 0 rest := by
            simp only [keepUncovered]
            rw [if_neg (by simp [hcov0])]
            congr 1
            apply keepUncovered_congr
            intro i
            rw [show 0 + 1 + i = i + 1 from by omega, Nat.zero_add]
            exact coveredPos_succ_of_no_head hnone i
          rw [hL, hR]
          congr 1
          have hdr : disjointOccs rest = true := disjointOccs_drop 1 hd
          exact ih rest (by omega) hdr

/-- Claim C7 as amended: for every reply in which the case-insensitive
occurrences of "as an ai" and "language model" are pairwise
non-overlapping, the single-pass sanitizer removes exactly the characters
of those occurrences and leaves all other characters unchanged in their
original order (the result of `sanitizeList` equals the spec-level
`sanitizeSpec`); when two occurrences overlap, the pass can leave part of
the later one behind. -/
theorem sanitize_removes_disjoint_occurrences (s : List Char)
    (h : disjointOccs s = true) : sanitizeList s = sanitizeSpec s :=
  scrub_eq_keep s.length s (Nat.le_refl _) h

theorem sanitize_removes_disjoint_occurrences_witness :
    disjointOccs ("As an AI language model, here you go.".data) = true ∧
    sanitizeList ("As an AI language model, here you go.".data) =
      sanitizeSpec ("As an AI language model, here you go.".data) ∧
    sanitizeReply "As an AI language model, here you go." = " , here you go." :=
  ⟨by decide,
   sanitize_removes_disjoint_occurrences ("As an AI language model, here you go.".data)
     (by decide),
   by decide⟩

/-- Claim C7 as stated is refuted: in `"language modelanguage model"` two
case-insensitive occurrences of `"language model"` overlap on the shared
`"l"`; the single regex pass removes only the first and leaves
`"anguage model"`, while removing every occurrence and keeping only
uncovered characters would leave the empty string. -/
theorem sanitize_counterexample :
    sanitizeList ("language modelanguage model".data) ≠
      sanitizeSpec ("language modelanguage model".data) ∧
    sanitizeReply "language modelanguage model" = "anguage model" ∧
    sanitizeSpec ("language modelanguage model".data) = [] :=
  ⟨by decide, by decide, by decide⟩
